import Mathlib

/-!
Shallow embedding of the todo priority scoring engine of this repository
(`ml_service/app/scoring.py` and `ml_service/app/main.py`).

Machine floats are modelled by exact rationals (`ℚ`); Python's `round(x, 3)`
is modelled by exact round-half-to-even at 3 decimal places; `datetime`
values are modelled by the timestamp their wall-clock fields denote when
read as UTC seconds together with an optional fixed utc offset (`tzinfo`).
Python's string primitives `lower`, `strip`, `split`, and the substring
operator `in` are modelled by structurally recursive functions on the
character list of the string.
-/

namespace TodoScoring

/-- Weight table `KEYWORD_WEIGHTS` of `scoring.py`. -/
def KEYWORD_WEIGHTS : List (String × ℚ) :=
  [("urgent", 35/100), ("asap", 3/10), ("important", 25/100), ("today", 2/10),
   ("tomorrow", 15/100), ("email", 5/100), ("call", 5/100)]

/-- Weight table `TAG_WEIGHTS` of `scoring.py`. -/
def TAG_WEIGHTS : List (String × ℚ) :=
  [("work", 1/10), ("home", 5/100), ("bug", 2/10), ("feature", 15/100)]

/-- Python `datetime`: `naive` is the timestamp its wall-clock fields denote
when read as UTC seconds; `tz` is the utc offset of its `tzinfo` in seconds,
`none` for a naive datetime. -/
structure PyDateTime where
  naive : ℚ
  tz : Option ℚ := none
deriving DecidableEq

/-- The frozen dataclass `TodoFeatures` of `scoring.py`. -/
structure TodoFeatures where
  title : String
  completed : Bool := false
  created_at : Option PyDateTime := none
  due_date : Option PyDateTime := none
  tags : List String := []

/-- The helper `_normalize_dt` of `scoring.py`: `None` stays `None`; a naive
datetime gets `tzinfo=timezone.utc` attached (its fields are read as UTC); an
aware one is converted with `astimezone(timezone.utc)`. The result is the UTC
timestamp in seconds. -/
def normalize_dt : Option PyDateTime → Option ℚ
  | Option.none => Option.none
  | Option.some d =>
      Option.some (match d.tz with
        | Option.none => d.naive
        | Option.some off => d.naive - off)

/-- Python `s.lower()` on the character list. -/
def pyLower (s : List Char) : List Char := s.map Char.toLower

/-- Python `s.strip()` on the character list: drop leading and trailing
whitespace. -/
def pyStrip (s : List Char) : List Char :=
  ((s.dropWhile Char.isWhitespace).reverse.dropWhile Char.isWhitespace).reverse

/-- Python `s.lower()` as a string-to-string function. -/
def pyLowerStr (s : String) : String := String.mk (pyLower s.data)

/-- Python `s.strip()` as a string-to-string function. -/
def pyStripStr (s : String) : String := String.mk (pyStrip s.data)

/-- Python `needle in hay` on character lists: `needle` occurs as a
contiguous substring of `hay`. -/
def hasSubstr (needle : List Char) : List Char → Bool
  | [] => needle.isEmpty
  | c :: rest => needle.isPrefixOf (c :: rest) || hasSubstr needle rest

/-- Helper of `pyWordCount`: count maximal non-whitespace runs; the flag
records whether the scan is inside a run. -/
def pyWordCountAux : Bool → List Char → ℕ
  | _, [] => 0
  | inw, c :: cs =>
      if c.isWhitespace then pyWordCountAux false cs
      else if inw then pyWordCountAux true cs else 1 + pyWordCountAux true cs

/-- Python `len(s.split())`: the number of whitespace-delimited words. -/
def pyWordCount (s : List Char) : ℕ := pyWordCountAux false s

/-- The helper `_keyword_bonus` of `scoring.py`. -/
def keyword_bonus (title : String) : ℚ :=
  let title_lc := pyLower title.data
  let bonus := KEYWORD_WEIGHTS.foldl
    (fun acc kw => if hasSubstr kw.1.data title_lc then acc + kw.2 else acc) 0
  let bonus := if pyWordCount title_lc ≥ 8 then bonus + 5/100 else bonus
  min bonus (45/100)

/-- Python `TAG_WEIGHTS.get(tag, 0.03)`. -/
def tagWeight (t : String) : ℚ :=
  match TAG_WEIGHTS.find? (fun p => p.1 == t) with
  | Option.some p => p.2
  | Option.none => 3/100

/-- The helper `_tag_bonus` of `scoring.py`. -/
def tag_bonus (tags : List String) : ℚ :=
  if tags = [] then 0
  else min (tags.foldl (fun acc raw => acc + tagWeight (pyStripStr (pyLowerStr raw))) 0)
    (25/100)

/-- The helper `_age_bonus` of `scoring.py`, with the sampled clock instant
`now` (UTC seconds) passed explicitly. -/
def age_bonus (now : ℚ) : Option ℚ → ℚ
  | Option.none => 0
  | Option.some created_at =>
      let age_hours := (now - created_at) / 3600
      if age_hours ≤ 24 then 5/100
      else if age_hours ≤ 24 * 3 then 1/10
      else if age_hours ≤ 24 * 7 then 15/100
      else 2/10

/-- The helper `_due_date_bonus` of `scoring.py`, with the sampled clock
instant `now` (UTC seconds) passed explicitly. -/
def due_date_bonus (now : ℚ) : Option ℚ → ℚ
  | Option.none => 0
  | Option.some due_date =>
      let delta_hours := (due_date - now) / 3600
      if delta_hours ≤ 0 then 3/10
      else if delta_hours ≤ 24 then 25/100
      else if delta_hours ≤ 24 * 3 then 2/10
      else if delta_hours ≤ 24 * 7 then 1/10
      else 5/100

/-- Python `round(x, 3)` on the exact value: round half to even at 3 decimal
places. -/
def round3 (x : ℚ) : ℚ :=
  ((if 1000 * x - (⌊1000 * x⌋ : ℚ) < 1/2 then ⌊1000 * x⌋
    else if (1/2 : ℚ) < 1000 * x - (⌊1000 * x⌋ : ℚ) then ⌊1000 * x⌋ + 1
    else if ⌊1000 * x⌋ % 2 = 0 then ⌊1000 * x⌋
    else ⌊1000 * x⌋ + 1 : ℤ) : ℚ) / 1000

/-- The function `priority_score` of `scoring.py`, with the clock instant
`now` passed explicitly. -/
def priority_score (now : ℚ) (features : TodoFeatures) : ℚ :=
  let score := 35/100 + keyword_bonus features.title + tag_bonus features.tags
      + age_bonus now (normalize_dt features.created_at)
      + due_date_bonus now (normalize_dt features.due_date)
  let score := if features.completed then score - 6/10 else score
  max 0 (min 1 (round3 score))

/-- One entry of the raw `tags` value handed to the `tags` field validator of
`main.py` (`mode="before"`): a JSON string or `null`. -/
inductive RawTag where
  | null : RawTag
  | str : String → RawTag
deriving DecidableEq

/-- The raw `tags` value handed to the validator: absent/`None`, a bare
string, or a sequence of entries. -/
inductive RawTags where
  | absent : RawTags
  | bare : String → RawTags
  | items : List RawTag → RawTags
deriving DecidableEq

/-- Python truthiness of an entry (`if not item: continue`). -/
def truthy : RawTag → Bool
  | RawTag.null => false
  | RawTag.str s => !(s == "")

/-- Python `str(item)`. -/
def rawText : RawTag → String
  | RawTag.null => "None"
  | RawTag.str s => s

/-- The validator `TodoPayload.normalize_tags` of `main.py`. -/
def normalize_tags : RawTags → List String
  | RawTags.absent => []
  | RawTags.bare s => [s]
  | RawTags.items l =>
      l.foldl (fun tags item =>
        if truthy item then tags ++ [pyStripStr (rawText item)] else tags) []

/-- An already-validated `TodoPayload` of `main.py`. -/
structure TodoPayload where
  title : String
  completed : Bool := false
  created_at : Option PyDateTime := none
  due_date : Option PyDateTime := none
  tags : List String := []

/-- A `ScoreResult` of `main.py`: the payload fields plus the score. -/
structure ScoreResult where
  title : String
  completed : Bool
  created_at : Option PyDateTime
  due_date : Option PyDateTime
  tags : List String
  priority_score : ℚ

/-- The `POST /score` handler body of `main.py` (the loop that builds one
`ScoreResult` per todo), with the clock instant passed explicitly. -/
def score (now : ℚ) (todos : List TodoPayload) : List ScoreResult :=
  todos.map (fun todo =>
    { title := todo.title
      completed := todo.completed
      created_at := todo.created_at
      due_date := todo.due_date
      tags := todo.tags
      priority_score := priority_score now
        { title := todo.title
          completed := todo.completed
          created_at := todo.created_at
          due_date := todo.due_date
          tags := todo.tags } })

/-- A rational that is a whole number of hundredths (every intermediate score
of the engine is one). -/
def IsCent (x : ℚ) : Prop := ∃ k : ℤ, x = k / 100

/-- The running total of `priority_score` after the four bonus additions and
before the completion penalty. -/
def presum (now : ℚ) (f : TodoFeatures) : ℚ :=
  35/100 + keyword_bonus f.title + tag_bonus f.tags
    + age_bonus now (normalize_dt f.created_at)
    + due_date_bonus now (normalize_dt f.due_date)

lemma isCent_add {a b : ℚ} (ha : IsCent a) (hb : IsCent b) : IsCent (a + b) := by
  obtain ⟨k, rfl⟩ := ha
  obtain ⟨m, rfl⟩ := hb
  exact ⟨k + m, by push_cast; ring⟩

lemma isCent_min {a b : ℚ} (ha : IsCent a) (hb : IsCent b) : IsCent (min a b) := by
  obtain ⟨k, rfl⟩ := ha
  obtain ⟨m, rfl⟩ := hb
  refine ⟨min k m, ?_⟩
  rw [min_div_div_right (by norm_num : (0:ℚ) ≤ 100)]
  push_cast
  rfl

lemma isCent_keyword_foldl (l : List (String × ℚ)) (h : ∀ p ∈ l, IsCent p.2)
    (t : List Char) :
    ∀ a : ℚ, IsCent a →
      IsCent (l.foldl (fun acc kw => if hasSubstr kw.1.data t then acc + kw.2 else acc) a) := by
  induction l with
  | nil => exact fun a ha => ha
  | cons p l ih =>
      intro a ha
      rw [List.foldl_cons]
      refine ih (fun q hq => h q (List.mem_cons_of_mem p hq)) _ ?_
      by_cases hp : hasSubstr p.1.data t = true
      · rw [if_pos hp]
        exact isCent_add ha (h p (List.mem_cons_self p l))
      · rw [if_neg hp]
        exact ha

lemma isCent_keyword_bonus (title : String) : IsCent (keyword_bonus title) := by
  have hW : ∀ p ∈ KEYWORD_WEIGHTS, IsCent p.2 := by
    intro p hp
    fin_cases hp
    · exact ⟨35, by norm_num⟩
    · exact ⟨30, by norm_num⟩
    · exact ⟨25, by norm_num⟩
    · exact ⟨20, by norm_num⟩
    · exact ⟨15, by norm_num⟩
    · exact ⟨5, by norm_num⟩
    · exact ⟨5, by norm_num⟩
  have h0 : IsCent (KEYWORD_WEIGHTS.foldl
      (fun acc kw => if hasSubstr kw.1.data (pyLower title.data) then acc + kw.2 else acc) 0) :=
    isCent_keyword_foldl KEYWORD_WEIGHTS hW (pyLower title.data) 0 ⟨0, by norm_num⟩
  show IsCent (min (if pyWordCount (pyLower title.data) ≥ 8 then _ + 5/100 else _) (45/100))
  refine isCent_min ?_ ⟨45, by norm_num⟩
  by_cases h8 : pyWordCount (pyLower title.data) ≥ 8
  · rw [if_pos h8]
    exact isCent_add h0 ⟨5, by norm_num⟩
  · rw [if_neg h8]
    exact h0

lemma isCent_tagWeight (t : String) : IsCent (tagWeight t) := by
  unfold tagWeight
  cases hf : TAG_WEIGHTS.find? (fun p => p.1 == t) with
  | none => exact ⟨3, by norm_num⟩
  | some p =>
      have hp : p ∈ TAG_WEIGHTS := List.mem_of_find?_eq_some hf
      fin_cases hp
      · exact ⟨10, by norm_num⟩
      · exact ⟨5, by norm_num⟩
      · exact ⟨20, by norm_num⟩
      · exact ⟨15, by norm_num⟩

lemma isCent_tag_foldl (l : List String) :
    ∀ a : ℚ, IsCent a →
      IsCent (l.foldl (fun acc raw => acc + tagWeight (pyStripStr (pyLowerStr raw))) a) := by
  induction l with
  | nil => exact fun a ha => ha
  | cons r l ih =>
      intro a ha
      rw [List.foldl_cons]
      exact ih _ (isCent_add ha (isCent_tagWeight (pyStripStr (pyLowerStr r))))

lemma isCent_tag_bonus (tags : List String) : IsCent (tag_bonus tags) := by
  unfold tag_bonus
  by_cases h : tags = []
  · rw [if_pos h]
    exact ⟨0, by norm_num⟩
  · rw [if_neg h]
    exact isCent_min (isCent_tag_foldl tags 0 ⟨0, by norm_num⟩) ⟨25, by norm_num⟩

lemma isCent_age_bonus (now : ℚ) (oc : Option ℚ) : IsCent (age_bonus now oc) := by
  cases oc with
  | none => exact ⟨0, by norm_num [age_bonus]⟩
  | some c =>
      simp only [age_bonus]
      split_ifs
      · exact ⟨5, by norm_num⟩
      · exact ⟨10, by norm_num⟩
      · exact ⟨15, by norm_num⟩
      · exact ⟨20, by norm_num⟩

lemma isCent_due_date_bonus (now : ℚ) (od : Option ℚ) : IsCent (due_date_bonus now od) := by
  cases od with
  | none => exact ⟨0, by norm_num [due_date_bonus]⟩
  | some d =>
      simp only [due_date_bonus]
      split_ifs
      · exact ⟨30, by norm_num⟩
      · exact ⟨25, by norm_num⟩
      · exact ⟨20, by norm_num⟩
      · exact ⟨10, by norm_num⟩
      · exact ⟨5, by norm_num⟩

lemma isCent_presum (now : ℚ) (f : TodoFeatures) : IsCent (presum now f) :=
  isCent_add (isCent_add (isCent_add (isCent_add ⟨35, by norm_num⟩
    (isCent_keyword_bonus f.title)) (isCent_tag_bonus f.tags))
    (isCent_age_bonus now (normalize_dt f.created_at)))
    (isCent_due_date_bonus now (normalize_dt f.due_date))

lemma round3_intCast_div_1000 (n : ℤ) : round3 ((n : ℚ) / 1000) = (n : ℚ) / 1000 := by
  have h1 : (1000 : ℚ) * ((n : ℚ) / 1000) = ((n : ℤ) : ℚ) := by ring
  unfold round3
  rw [h1, Int.floor_intCast, if_pos (by rw [sub_self]; norm_num)]

lemma round3_of_isCent {x : ℚ} (hx : IsCent x) : round3 x = x := by
  obtain ⟨k, rfl⟩ := hx
  have h : (k : ℚ) / 100 = ((10 * k : ℤ) : ℚ) / 1000 := by push_cast; ring
  rw [h, round3_intCast_div_1000]

lemma round3_shape (x : ℚ) : ∃ m : ℤ, round3 x = (m : ℚ) / 1000 := ⟨_, rfl⟩

lemma priority_score_eq (now : ℚ) (f : TodoFeatures) :
    priority_score now f =
      max 0 (min 1 (round3 (if f.completed then presum now f - 6/10 else presum now f))) :=
  rfl

/-- Claim C1: for every `TodoFeatures` value and every evaluation instant,
`priority_score` lies in `[0, 1]` and equals its own rounding to 3 decimal
places. -/
theorem priority_score_range_and_round (now : ℚ) (f : TodoFeatures) :
    0 ≤ priority_score now f ∧ priority_score now f ≤ 1 ∧
      round3 (priority_score now f) = priority_score now f := by
  rw [priority_score_eq]
  set s := if f.completed then presum now f - 6/10 else presum now f with hs
  refine ⟨le_max_left _ _, max_le (by norm_num) (min_le_left _ _), ?_⟩
  obtain ⟨m, hm⟩ := round3_shape s
  rw [hm]
  rcases le_or_lt ((m : ℚ) / 1000) 0 with h0 | h0
  · rw [max_eq_left (le_trans (min_le_right 1 _) h0)]
    exact round3_of_isCent ⟨0, by norm_num⟩
  · rcases le_or_lt 1 ((m : ℚ) / 1000) with h1 | h1
    · rw [min_eq_left h1, max_eq_right (by norm_num : (0:ℚ) ≤ 1)]
      exact round3_of_isCent ⟨100, by norm_num⟩
    · rw [min_eq_right h1.le, max_eq_right h0.le]
      exact round3_intCast_div_1000 m

/-- Claim C10: a `createdAt` in the future of the evaluation instant (negative
elapsed hours) falls into the `≤ 24h` bucket and gets age bonus 0.05, not 0. -/
theorem age_bonus_future (now c : ℚ) (h : now < c) :
    age_bonus now (Option.some c) = 5/100 := by
  simp only [age_bonus]
  rw [if_pos]
  have hneg : (now - c) / 3600 < 0 :=
    div_neg_of_neg_of_pos (by linarith) (by norm_num)
  linarith

/-- Witness for C10 at `now = 0`, `createdAt = 3600`. -/
theorem age_bonus_future_witness :
    (0 : ℚ) < 3600 ∧ age_bonus 0 (Option.some 3600) = 5/100 :=
  ⟨by norm_num, age_bonus_future 0 3600 (by norm_num)⟩

lemma clamp_max0 (x : ℚ) : max 0 (min 1 (max 0 x)) = max 0 (min 1 x) := by
  rcases le_total 0 x with h | h
  · rw [max_eq_right h]
  · rw [max_eq_left h, min_eq_right (by norm_num : (0:ℚ) ≤ 1), max_self,
      min_eq_right (le_trans h (by norm_num)), max_eq_left h]

/-- Claim C2: for a completed item the score is
`max(0, round3(preCompletionSum) − 0.60)` clamped to `[0,1]`: the flat 0.60
penalty lands after all four bonuses and before the final clamp. -/
theorem completed_penalty (now : ℚ) (f : TodoFeatures) (h : f.completed = true) :
    priority_score now f = max 0 (min 1 (max 0 (round3 (presum now f) - 6/10))) := by
  obtain ⟨k, hk⟩ := isCent_presum now f
  have hround : round3 (presum now f) = presum now f := round3_of_isCent ⟨k, hk⟩
  have hsub : IsCent (presum now f - 6/10) := ⟨k - 60, by rw [hk]; push_cast; ring⟩
  have hr2 : round3 (presum now f - 6/10) = presum now f - 6/10 := round3_of_isCent hsub
  rw [priority_score_eq, if_pos h, hr2, hround, clamp_max0]

/-- Witness for C2 on a concrete completed item. -/
theorem completed_penalty_witness :
    (({title := "x", completed := true} : TodoFeatures).completed = true) ∧
    priority_score 0 {title := "x", completed := true} =
      max 0 (min 1 (max 0 (round3 (presum 0 {title := "x", completed := true}) - 6/10))) :=
  ⟨rfl, completed_penalty 0 {title := "x", completed := true} rfl⟩

/-- Claim C3: the age and due-date bonuses are exactly the step functions of
elapsed/remaining hours with inclusive thresholds checked in order — `None`
gives 0; elapsed ≤24h/≤72h/≤168h/else gives 0.05/0.10/0.15/0.20; remaining
≤0h/≤24h/≤72h/≤168h/else gives 0.30/0.25/0.20/0.10/0.05. -/
theorem bonus_thresholds (now : ℚ) :
    age_bonus now Option.none = 0 ∧
    due_date_bonus now Option.none = 0 ∧
    (∀ c : ℚ,
      ((now - c) / 3600 ≤ 24 → age_bonus now (Option.some c) = 5/100) ∧
      (24 < (now - c) / 3600 → (now - c) / 3600 ≤ 72 →
        age_bonus now (Option.some c) = 1/10) ∧
      (72 < (now - c) / 3600 → (now - c) / 3600 ≤ 168 →
        age_bonus now (Option.some c) = 15/100) ∧
      (168 < (now - c) / 3600 → age_bonus now (Option.some c) = 2/10)) ∧
    (∀ d : ℚ,
      ((d - now) / 3600 ≤ 0 → due_date_bonus now (Option.some d) = 3/10) ∧
      (0 < (d - now) / 3600 → (d - now) / 3600 ≤ 24 →
        due_date_bonus now (Option.some d) = 25/100) ∧
      (24 < (d - now) / 3600 → (d - now) / 3600 ≤ 72 →
        due_date_bonus now (Option.some d) = 2/10) ∧
      (72 < (d - now) / 3600 → (d - now) / 3600 ≤ 168 →
        due_date_bonus now (Option.some d) = 1/10) ∧
      (168 < (d - now) / 3600 → due_date_bonus now (Option.some d) = 5/100)) := by
  refine ⟨rfl, rfl, fun c => ⟨?_, ?_, ?_, ?_⟩, fun d => ⟨?_, ?_, ?_, ?_, ?_⟩⟩ <;>
    (intros
     simp only [age_bonus, due_date_bonus]
     split_ifs <;> first | rfl | linarith)

/-- Witness for C3 at the 24h age boundary and the 0h due boundary. -/
theorem bonus_thresholds_witness :
    (((0 : ℚ) - (-86400)) / 3600 ≤ 24 ∧ age_bonus 0 (Option.some (-86400)) = 5/100) ∧
    (((0 : ℚ) - 0) / 3600 ≤ 0 ∧ due_date_bonus 0 (Option.some 0) = 3/10) :=
  ⟨⟨by norm_num, ((bonus_thresholds 0).2.2.1 (-86400)).1 (by norm_num)⟩,
   ⟨by norm_num, ((bonus_thresholds 0).2.2.2 0).1 (by norm_num)⟩⟩

lemma keyword_foldl_eq_sum (t : List Char) : ∀ (l : List (String × ℚ)) (a : ℚ),
    l.foldl (fun acc kw => if hasSubstr kw.1.data t then acc + kw.2 else acc) a
      = a + (l.map (fun kw => if hasSubstr kw.1.data t then kw.2 else 0)).sum := by
  intro l
  induction l with
  | nil => intro a; simp
  | cons p l ih =>
      intro a
      rw [List.foldl_cons, ih, List.map_cons, List.sum_cons]
      by_cases hp : hasSubstr p.1.data t = true
      · rw [if_pos hp, if_pos hp]; ring
      · rw [if_neg hp, if_neg hp]; ring

/-- Claim C4: the keyword bonus is `min(0.45, S + L)` where `S` sums the
weight of each keyword occurring as a substring of the lower-cased title
(each at most once) and `L` is the 0.05 long-title bonus for a whitespace
word count of at least 8. -/
theorem keyword_bonus_closed_form (title : String) :
    keyword_bonus title =
      min (45/100)
        (((if hasSubstr "urgent".data (pyLower title.data) then (35/100 : ℚ) else 0) +
          (if hasSubstr "asap".data (pyLower title.data) then 3/10 else 0) +
          (if hasSubstr "important".data (pyLower title.data) then 25/100 else 0) +
          (if hasSubstr "today".data (pyLower title.data) then 2/10 else 0) +
          (if hasSubstr "tomorrow".data (pyLower title.data) then 15/100 else 0) +
          (if hasSubstr "email".data (pyLower title.data) then 5/100 else 0) +
          (if hasSubstr "call".data (pyLower title.data) then 5/100 else 0)) +
         (if pyWordCount (pyLower title.data) ≥ 8 then 5/100 else 0)) := by
  rw [min_comm]
  simp only [keyword_bonus, keyword_foldl_eq_sum, KEYWORD_WEIGHTS, List.map_cons,
    List.map_nil, List.sum_cons, List.sum_nil, zero_add, add_zero, ge_iff_le]
  by_cases h8 : 8 ≤ pyWordCount (pyLower title.data)
  · rw [if_pos h8, if_pos h8]
    congr 1
    ring
  · rw [if_neg h8, if_neg h8]
    congr 1
    ring

lemma tag_foldl_eq (l : List String) : ∀ a : ℚ,
    l.foldl (fun acc raw => acc + tagWeight (pyStripStr (pyLowerStr raw))) a
      = a + (l.map (fun r => tagWeight (pyStripStr (pyLowerStr r)))).sum := by
  induction l with
  | nil => intro a; simp
  | cons x xs ih =>
      intro a
      rw [List.foldl_cons, ih, List.map_cons, List.sum_cons]
      ring

lemma sum_map_default (l : List String)
    (h : ∀ r ∈ l, tagWeight (pyStripStr (pyLowerStr r)) = 3/100) :
    (l.map (fun r => tagWeight (pyStripStr (pyLowerStr r)))).sum
      = (3/100) * (l.length : ℚ) := by
  induction l with
  | nil => simp
  | cons x xs ih =>
      rw [List.map_cons, List.sum_cons, h x (List.mem_cons_self x xs),
        ih (fun r hr => h r (List.mem_cons_of_mem x hr)), List.length_cons]
      push_cast
      ring

/-- Claim C5: the tag bonus is 0 on an empty list; otherwise it is the sum of
the per-tag weights (lower-cased, trimmed lookup; default 0.03; duplicates
counted each time) clamped to 0.25; for a non-empty list of k unmapped tags
it is `min(0.03 k, 0.25)`. -/
theorem tag_bonus_spec :
    tag_bonus [] = 0 ∧
    (∀ l : List String, l ≠ [] →
        tag_bonus l =
          min ((l.map (fun r => tagWeight (pyStripStr (pyLowerStr r)))).sum) (25/100)) ∧
    (∀ l : List String, l ≠ [] →
        (∀ r ∈ l, TAG_WEIGHTS.find? (fun p => p.1 == pyStripStr (pyLowerStr r))
          = Option.none) →
        tag_bonus l = min ((3/100) * (l.length : ℚ)) (25/100)) := by
  have hgen : ∀ l : List String, l ≠ [] →
      tag_bonus l =
        min ((l.map (fun r => tagWeight (pyStripStr (pyLowerStr r)))).sum) (25/100) := by
    intro l hl
    unfold tag_bonus
    rw [if_neg hl, tag_foldl_eq l 0, zero_add]
  refine ⟨rfl, hgen, fun l hl hnone => ?_⟩
  rw [hgen l hl]
  congr 1
  refine sum_map_default l fun r hr => ?_
  unfold tagWeight
  rw [hnone r hr]

/-- Witness for C5 on the duplicate unknown-tag list `["x", "x"]`. -/
theorem tag_bonus_spec_witness :
    ((["x", "x"] : List String) ≠ []) ∧
    (∀ r ∈ (["x", "x"] : List String),
        TAG_WEIGHTS.find? (fun p => p.1 == pyStripStr (pyLowerStr r)) = Option.none) ∧
    tag_bonus ["x", "x"] =
      min ((3/100) * (((["x", "x"] : List String).length : ℕ) : ℚ)) (25/100) :=
  ⟨List.cons_ne_nil _ _, by decide,
    tag_bonus_spec.2.2 ["x", "x"] (List.cons_ne_nil _ _) (by decide)⟩

/-- Claim C6: on the spec's example 2 (title "URGENT: call client today",
tags ["bug"], nothing else set) the raw keyword sum is 0.60, the keyword
bonus clamps to 0.45, the tag bonus is 0.20, and the score is exactly 1. -/
theorem urgent_example (now : ℚ) :
    (KEYWORD_WEIGHTS.foldl (fun acc kw =>
        if hasSubstr kw.1.data (pyLower ("URGENT: call client today" : String).data)
        then acc + kw.2 else acc) 0) = 6/10 ∧
    keyword_bonus "URGENT: call client today" = 45/100 ∧
    tag_bonus ["bug"] = 2/10 ∧
    priority_score now
      ⟨"URGENT: call client today", false, Option.none, Option.none, ["bug"]⟩ = 1 := by
  have hfold : (KEYWORD_WEIGHTS.foldl (fun acc kw =>
      if hasSubstr kw.1.data (pyLower ("URGENT: call client today" : String).data)
      then acc + kw.2 else acc) 0) = 6/10 := by
    rw [keyword_foldl_eq_sum]
    norm_num [KEYWORD_WEIGHTS,
      show hasSubstr "urgent".data (pyLower ("URGENT: call client today" : String).data)
        = true from by decide,
      show hasSubstr "asap".data (pyLower ("URGENT: call client today" : String).data)
        = false from by decide,
      show hasSubstr "important".data (pyLower ("URGENT: call client today" : String).data)
        = false from by decide,
      show hasSubstr "today".data (pyLower ("URGENT: call client today" : String).data)
        = true from by decide,
      show hasSubstr "tomorrow".data (pyLower ("URGENT: call client today" : String).data)
        = false from by decide,
      show hasSubstr "email".data (pyLower ("URGENT: call client today" : String).data)
        = false from by decide,
      show hasSubstr "call".data (pyLower ("URGENT: call client today" : String).data)
        = true from by decide]
  have hkb : keyword_bonus "URGENT: call client today" = 45/100 := by
    simp only [keyword_bonus]
    rw [hfold,
      if_neg (show ¬ (pyWordCount (pyLower ("URGENT: call client today" : String).data) ≥ 8)
        from by decide),
      min_eq_right (by norm_num : (45:ℚ)/100 ≤ 6/10)]
  have htag : tag_bonus ["bug"] = 2/10 := by
    unfold tag_bonus
    rw [if_neg (show (["bug"] : List String) ≠ [] from by simp)]
    simp only [List.foldl_cons, List.foldl_nil]
    rw [show tagWeight (pyStripStr (pyLowerStr "bug")) = 2/10 from rfl, zero_add,
      min_eq_left (by norm_num : (2:ℚ)/10 ≤ 25/100)]
  refine ⟨hfold, hkb, htag, ?_⟩
  show max 0 (min 1 (round3 (35/100 + keyword_bonus "URGENT: call client today"
    + tag_bonus ["bug"] + 0 + 0))) = 1
  rw [hkb, htag, show (35:ℚ)/100 + 45/100 + 2/10 + 0 + 0 = 1 by norm_num,
    round3_of_isCent ⟨100, by norm_num⟩, min_self,
    max_eq_right (by norm_num : (0:ℚ) ≤ 1)]

lemma keyword_foldl_mono (l : List (String × ℚ)) (hw : ∀ p ∈ l, 0 ≤ p.2)
    (u v : List Char) (hm : ∀ p ∈ l, hasSubstr p.1.data u = true → hasSubstr p.1.data v = true) :
    ∀ a b : ℚ, a ≤ b →
      l.foldl (fun acc kw => if hasSubstr kw.1.data u then acc + kw.2 else acc) a ≤
      l.foldl (fun acc kw => if hasSubstr kw.1.data v then acc + kw.2 else acc) b := by
  induction l with
  | nil => exact fun a b hab => hab
  | cons p l ih =>
      intro a b hab
      rw [List.foldl_cons, List.foldl_cons]
      refine ih (fun q hq => hw q (List.mem_cons_of_mem p hq))
        (fun q hq => hm q (List.mem_cons_of_mem p hq)) _ _ ?_
      by_cases hu : hasSubstr p.1.data u = true
      · rw [if_pos hu, if_pos (hm p (List.mem_cons_self p l) hu)]
        exact add_le_add_right hab _
      · rw [if_neg hu]
        by_cases hv : hasSubstr p.1.data v = true
        · rw [if_pos hv]
          exact le_add_of_le_of_nonneg hab (hw p (List.mem_cons_self p l))
        · rw [if_neg hv]
          exact hab

/-- Claim C8: if every keyword matching the first title also matches the
second, and the second is long whenever the first is, then the keyword bonus
is monotone between them; and the keyword bonus never exceeds 0.45. -/
theorem keyword_bonus_monotone (t1 t2 : String)
    (hm : ∀ p ∈ KEYWORD_WEIGHTS,
        hasSubstr p.1.data (pyLower t1.data) = true →
        hasSubstr p.1.data (pyLower t2.data) = true)
    (hl : pyWordCount (pyLower t1.data) ≥ 8 → pyWordCount (pyLower t2.data) ≥ 8) :
    keyword_bonus t1 ≤ keyword_bonus t2 ∧
      ∀ t : String, keyword_bonus t ≤ 45/100 := by
  have hw : ∀ p ∈ KEYWORD_WEIGHTS, (0 : ℚ) ≤ p.2 := by
    intro p hp
    fin_cases hp <;> norm_num
  constructor
  · show min _ (45/100) ≤ min _ (45/100)
    refine min_le_min ?_ le_rfl
    have hfold := keyword_foldl_mono KEYWORD_WEIGHTS hw (pyLower t1.data) (pyLower t2.data)
      hm 0 0 le_rfl
    by_cases h8 : pyWordCount (pyLower t1.data) ≥ 8
    · rw [if_pos h8, if_pos (hl h8)]
      exact add_le_add_right hfold _
    · rw [if_neg h8]
      by_cases h8v : pyWordCount (pyLower t2.data) ≥ 8
      · rw [if_pos h8v]
        exact le_add_of_le_of_nonneg hfold (by norm_num)
      · rw [if_neg h8v]
        exact hfold
  · exact fun t => min_le_right _ _

/-- Witness for C8 with `t1 = "email"` and `t2 = "urgent email"`. -/
theorem keyword_bonus_monotone_witness :
    (∀ p ∈ KEYWORD_WEIGHTS,
        hasSubstr p.1.data (pyLower ("email" : String).data) = true →
        hasSubstr p.1.data (pyLower ("urgent email" : String).data) = true) ∧
    (pyWordCount (pyLower ("email" : String).data) ≥ 8 →
      pyWordCount (pyLower ("urgent email" : String).data) ≥ 8) ∧
    keyword_bonus "email" ≤ keyword_bonus "urgent email" :=
  ⟨by decide, by decide,
    (keyword_bonus_monotone "email" "urgent email" (by decide) (by decide)).1⟩

/-- Counterexample for C7: the validator keeps a whitespace-only entry, whose
stripped form is the empty token, so the output is not made of non-empty
tokens. -/
theorem normalize_tags_empty_token :
    normalize_tags (RawTags.items [RawTag.str " "]) = [""] ∧
    ¬ (∀ t ∈ normalize_tags (RawTags.items [RawTag.str " "]), t ≠ "") := by
  refine ⟨by decide, fun h => ?_⟩
  exact h "" (by decide) rfl

lemma normalize_tags_foldl (l : List RawTag) : ∀ acc : List String,
    l.foldl (fun tags item =>
      if truthy item then tags ++ [pyStripStr (rawText item)] else tags) acc
      = acc ++ (l.filter truthy).map (fun i => pyStripStr (rawText i)) := by
  induction l with
  | nil => intro acc; simp
  | cons x xs ih =>
      intro acc
      rw [List.foldl_cons]
      by_cases hx : truthy x = true
      · rw [if_pos hx, ih, List.filter_cons_of_pos hx, List.map_cons,
          List.append_cons, List.append_assoc]
        simp
      · rw [if_neg hx, ih, List.filter_cons_of_neg (by simpa using hx)]

/-- Amended C7: the validator always succeeds; `None` gives `[]`; a bare
string gives the one-element list holding that string unmodified (not
trimmed); for a sequence, falsy entries (null, empty string) are dropped
first and each remaining entry is stripped — whitespace-only entries thus
survive as empty tokens; no case-folding and no deduplication. -/
theorem normalize_tags_amended :
    normalize_tags RawTags.absent = [] ∧
    (∀ s : String, normalize_tags (RawTags.bare s) = [s]) ∧
    (∀ l : List RawTag,
        normalize_tags (RawTags.items l) =
          (l.filter truthy).map (fun i => pyStripStr (rawText i))) := by
  refine ⟨rfl, fun s => rfl, fun l => ?_⟩
  show l.foldl _ [] = _
  rw [normalize_tags_foldl l [], List.nil_append]

/-- Claim C9: the batch handler returns one result per input in the same
order, echoing each record's fields unchanged and attaching its computed
score. -/
theorem score_batch_spec (now : ℚ) (todos : List TodoPayload) (_h : todos ≠ []) :
    (score now todos).length = todos.length ∧
    ∀ i : ℕ, (score now todos)[i]? =
      (todos[i]?).map (fun todo =>
        ({ title := todo.title, completed := todo.completed,
           created_at := todo.created_at, due_date := todo.due_date,
           tags := todo.tags,
           priority_score := priority_score now
             { title := todo.title, completed := todo.completed,
               created_at := todo.created_at, due_date := todo.due_date,
               tags := todo.tags } } : ScoreResult)) := by
  refine ⟨List.length_map todos _, fun i => ?_⟩
  exact List.getElem?_map _ todos i

/-- Witness for C9 on a one-element batch. -/
theorem score_batch_spec_witness :
    (([({title := "a"} : TodoPayload)] : List TodoPayload) ≠ []) ∧
    (score 0 [({title := "a"} : TodoPayload)]).length =
      ([({title := "a"} : TodoPayload)] : List TodoPayload).length :=
  ⟨List.cons_ne_nil _ _,
    (score_batch_spec 0 [({title := "a"} : TodoPayload)] (List.cons_ne_nil _ _)).1⟩

end TodoScoring
